import Mathlib

/-!
Verification of the walrus wallpaper daemon: a shallow embedding of the
wallpaper queue, the IPC framing layer, the daemon control loop and the
transition synthesizer, together with theorems settling the specification
claims.

Modelling conventions:
- file-system paths are strings (queue entries) or lists of path
  components (the category-symlink model); file existence is an explicit
  predicate passed to the operations that consult the file system;
- floating-point scalars of the transition pipeline are modelled as real
  numbers;
- randomness is modelled by explicit draw streams threaded through a
  state value mirroring the RNG field of the daemon;
- wire bytes are natural numbers below 256.
-/

namespace Walrus

/-- Wallpaper queue: an ordered sequence of paths plus the current index
(crates/walrus-daemon/src/daemon.rs, `struct Queue`). -/
structure Queue where
  queue : List String
  index : Nat
deriving DecidableEq, Repr

/-- The `Queue::new`: the recursive directory walk (walkdir with symlink
following, exclusion of the `.like`/`.dislike` marker directories, and the
is-file filter) is I/O and is abstracted by the list of files it produced;
the structural content kept from the source is that the index starts at 0. -/
def Queue.new (files : List String) : Queue :=
  { queue := files, index := 0 }

/-- The `Vec::is_empty` on the queue (crates/walrus-daemon/src/daemon.rs,
`Queue::is_empty`). -/
def Queue.is_empty (q : Queue) : Bool :=
  q.queue.isEmpty

/-- One swap of `slice::swap(i, j)`; out-of-range indices leave the list
unchanged (they cannot occur in the shuffle loop below). -/
def listSwap (l : List String) (i j : Nat) : List String :=
  match l[i]?, l[j]? with
  | some a, some b => (l.set i b).set j a
  | _, _ => l

/-- The Fisher-Yates loop of rand's `SliceRandom::shuffle`: for `i` from
`len - 1` down to `1`, swap position `i` with a drawn position `j ≤ i`.
The RNG draw `gen_range(0..=i)` is modelled by `f i % (i + 1)` for an
arbitrary draw stream `f`. -/
def shuffleGo (f : Nat → Nat) : Nat → List String → List String
  | 0, l => l
  | i + 1, l => shuffleGo f i (listSwap l (i + 1) (f (i + 1) % (i + 2)))

/-- The `Queue::shuffle` (crates/walrus-daemon/src/daemon.rs): shuffle the
vector with the thread RNG, then reset the index to 0. -/
def Queue.shuffle (q : Queue) (f : Nat → Nat) : Queue :=
  { queue := shuffleGo f (q.queue.length - 1) q.queue, index := 0 }

/-- Splitting a character list at the path separator, accumulating the
current component (helper for `pathComponents`). -/
def compsAux : List Char → List Char → List (List Char)
  | [], acc => [acc.reverse]
  | c :: cs, acc =>
    if c = '/' then acc.reverse :: compsAux cs [] else compsAux cs (c :: acc)

/-- The component view of a path string (`PathBuf::components`): the
pieces between path separators, each as its character list. -/
def pathComponents (p : String) : List (List Char) :=
  compsAux p.data []

/-- The path order used by `Vec::<PathBuf>::sort`: `PathBuf`'s `Ord`
compares paths component by component, each component lexicographically
(byte order on `OsStr`, here the character order). This differs from the
order of the full path strings: the separator takes part in a string
comparison but not in a component comparison. -/
def pathLe (a b : String) : Bool :=
  decide (pathComponents a ≤ pathComponents b)

/-- The `Queue::sort` (crates/walrus-daemon/src/daemon.rs): `self.queue.sort()`
is Rust's stable sort under `PathBuf`'s component-wise order, modelled by
a stable merge sort under `pathLe`. Note the source does not touch
`self.index` here. -/
def Queue.sort (q : Queue) : Queue :=
  { q with queue := q.queue.mergeSort pathLe }

/-- The `Queue::get_current`: `self.queue.get(self.index)`. -/
def Queue.get_current (q : Queue) : Option String :=
  q.queue[q.index]?

/-- The `Queue::next`: wrap the index forward when the queue is non-empty. -/
def Queue.next (q : Queue) : Queue :=
  if q.is_empty then q
  else { q with index := (q.index + 1) % q.queue.length }

/-- The `Queue::previous`: wrap the index backward when the queue is
non-empty. -/
def Queue.previous (q : Queue) : Queue :=
  if q.is_empty then q
  else { q with index := (q.index + q.queue.length - 1) % q.queue.length }

/-- The `Queue::cleanup_invalid_files`: retain the paths that still exist
(existence given by the predicate `fs`), clamp the index into range when
the result is non-empty, and report whether anything was removed. -/
def Queue.cleanup_invalid_files (q : Queue) (fs : String → Bool) : Queue × Bool :=
  let initial_len := q.queue.length
  let kept := q.queue.filter fs
  let idx := if kept.isEmpty then q.index else min q.index (kept.length - 1)
  ({ queue := kept, index := idx }, kept.length < initial_len)

/-- The queue invariant from the spec: `0 <= index < len` whenever
`len > 0` (the lower bound is inherent to `Nat`). -/
def Queue.inv (q : Queue) : Prop :=
  q.queue ≠ [] → q.index < q.queue.length

/-- Monitor resolution (walrus-core config, `struct Resolution`, i32
fields). -/
structure Resolution where
  width : Int
  height : Int

/-- The `normalize_duration` (crates/walrus-daemon/src/daemon.rs 360-370 and
src/utils.rs 198-208): converts the angle to radians, computes
`width*|cos| + height*|sin|` and scales the base duration by
`diagonal / distance_at_angle`. Floating point is modelled by the reals;
`to_radians` is multiplication by pi/180. -/
noncomputable def normalize_duration (base_duration : ℝ) (res : Resolution)
    (angle_degrees : ℝ) : ℝ :=
  let width : ℝ := (res.width : ℝ)
  let height : ℝ := (res.height : ℝ)
  let theta : ℝ := angle_degrees * (Real.pi / 180)
  let distance_at_angle := width * |Real.cos theta| + height * |Real.sin theta|
  let diagonal_distance := Real.sqrt (width ^ 2 + height ^ 2)
  let ratio := diagonal_distance / distance_at_angle
  base_duration * ratio

/-- Transition flavours (walrus-core config, `enum TransitionFlavour`). -/
inductive TransitionFlavour where
  | Wipe
  | Wave
  | Grow
  | Outer
deriving DecidableEq, Repr

/-- The `enum FilterMethod` (src/transition.rs). -/
inductive FilterMethod where
  | Nearest
  | Bilinear
  | CatmullRom
  | Mitchell
  | Lanczos3
deriving DecidableEq, Repr

/-- The `enum ResizeMethod` (src/transition.rs). -/
inductive ResizeMethod where
  | No
  | Crop
  | Fit
deriving DecidableEq, Repr

/-- The `struct Pos` (src/transition.rs), an x/y fraction pair. -/
structure Pos where
  x : ℝ
  y : ℝ

/-- The `struct WaveSize` (src/transition.rs). -/
structure WaveSize where
  width : Nat
  height : Nat

/-- A transition argument (src/transition.rs, `enum ImgArg`). The
rendering of each argument to its `--flag value` string pair
(`ImgArg::to_args`) is abstracted: each element keeps its typed value.
`Img` stands for the leading `img` subcommand literal. -/
inductive ImgArg where
  | Img
  | Resize (r : ResizeMethod)
  | FillColor (c : String)
  | Filter (f : FilterMethod)
  | TransitionType (t : TransitionFlavour)
  | TransitionStep (s : Nat)
  | TransitionDuration (d : ℝ)
  | TransitionFps (f : Nat)
  | TransitionBezier (b : ℝ × ℝ × ℝ × ℝ)
  | TransitionAngle (a : ℝ)
  | TransitionPos (p : Pos)
  | TransitionWave (w : WaveSize)

/-- The `ImgArg::to_args`: the `--flag value` string list of one argument,
kept at the level of the typed argument itself. -/
def ImgArg.to_args (a : ImgArg) : List ImgArg :=
  [a]

/-- The `struct TransitionArgBuilder` (src/transition.rs): a list of argument
groups, flattened by `build`. -/
structure TransitionArgBuilder where
  args : List (List ImgArg)

/-- The `TransitionArgBuilder::new`: starts from the `img` subcommand. -/
def TransitionArgBuilder.new : TransitionArgBuilder :=
  { args := [[ImgArg.Img]] }

/-- The `TransitionArgBuilder::build`: flatten the argument groups. -/
def TransitionArgBuilder.build (b : TransitionArgBuilder) : List ImgArg :=
  b.args.flatten

def TransitionArgBuilder.with_resize (b : TransitionArgBuilder) (r : ResizeMethod) :
    TransitionArgBuilder :=
  { b with args := b.args ++ [(ImgArg.Resize r).to_args] }

def TransitionArgBuilder.with_fill (b : TransitionArgBuilder) (c : String) :
    TransitionArgBuilder :=
  { b with args := b.args ++ [(ImgArg.FillColor c).to_args] }

def TransitionArgBuilder.with_filter (b : TransitionArgBuilder) (f : FilterMethod) :
    TransitionArgBuilder :=
  { b with args := b.args ++ [(ImgArg.Filter f).to_args] }

def TransitionArgBuilder.with_transition (b : TransitionArgBuilder)
    (t : TransitionFlavour) : TransitionArgBuilder :=
  { b with args := b.args ++ [(ImgArg.TransitionType t).to_args] }

def TransitionArgBuilder.with_step (b : TransitionArgBuilder) (s : Nat) :
    TransitionArgBuilder :=
  { b with args := b.args ++ [(ImgArg.TransitionStep s).to_args] }

def TransitionArgBuilder.with_duration (b : TransitionArgBuilder) (d : ℝ) :
    TransitionArgBuilder :=
  { b with args := b.args ++ [(ImgArg.TransitionDuration d).to_args] }

def TransitionArgBuilder.with_fps (b : TransitionArgBuilder) (f : Nat) :
    TransitionArgBuilder :=
  { b with args := b.args ++ [(ImgArg.TransitionFps f).to_args] }

def TransitionArgBuilder.with_bezier (b : TransitionArgBuilder)
    (bez : ℝ × ℝ × ℝ × ℝ) : TransitionArgBuilder :=
  { b with args := b.args ++ [(ImgArg.TransitionBezier bez).to_args] }

def TransitionArgBuilder.with_angle (b : TransitionArgBuilder) (a : ℝ) :
    TransitionArgBuilder :=
  { b with args := b.args ++ [(ImgArg.TransitionAngle a).to_args] }

def TransitionArgBuilder.with_pos (b : TransitionArgBuilder) (p : Pos) :
    TransitionArgBuilder :=
  { b with args := b.args ++ [(ImgArg.TransitionPos p).to_args] }

def TransitionArgBuilder.with_wave (b : TransitionArgBuilder) (w : WaveSize) :
    TransitionArgBuilder :=
  { b with args := b.args ++ [(ImgArg.TransitionWave w).to_args] }

/-- The command type carried over IPC (walrus-core `enum Commands`;
`config` is the client-only print-config command that never crosses the
wire). -/
inductive Commands where
  | config
  | categorise (category : String)
  | next
  | previous
  | pause
  | resume
  | reload
  | shutdown
deriving DecidableEq, Repr

/-- Little-endian digits base 256: `natLE k n` is the `k`-byte
little-endian encoding of `n` (`to_le_bytes`). -/
def natLE : Nat → Nat → List Nat
  | 0, _ => []
  | k + 1, n => n % 256 :: natLE k (n / 256)

/-- Value of a little-endian byte list (`from_le_bytes`). -/
def leVal : List Nat → Nat
  | [] => 0
  | b :: bs => b + 256 * leVal bs

/-- Modelled from the spec: `Commands::to_bytes` lives in the walrus-core
crate, which is not part of the sources; per the spec the payload is a
self-describing binary encoding ("bincode ... little-endian") the two ends
share, and the client-only print-config command is never encoded. Here:
no encoding for `config`; a tag byte per variant; `categorise` carries an
8-byte little-endian character count followed by the character codes. -/
def Commands.to_bytes : Commands → Option (List Nat)
  | .config => none
  | .categorise s => some (1 :: (natLE 8 s.length ++ s.data.map Char.toNat))
  | .next => some [2]
  | .previous => some [3]
  | .pause => some [4]
  | .resume => some [5]
  | .reload => some [6]
  | .shutdown => some [7]

/-- Modelled from the spec: `Commands::from_bytes` (walrus-core), the
inverse decoder; an unknown tag, the local-only `config` tag, or a
malformed `categorise` payload is rejected with `none`. -/
def Commands.from_bytes (bytes : List Nat) : Option Commands :=
  match bytes with
  | [2] => some .next
  | [3] => some .previous
  | [4] => some .pause
  | [5] => some .resume
  | [6] => some .reload
  | [7] => some .shutdown
  | 1 :: rest =>
    if rest.length < 8 then none
    else
      let n := leVal (rest.take 8)
      let content := rest.drop 8
      if content.length = n then
        some (.categorise (String.mk (content.map Char.ofNat)))
      else none
  | _ => none

/-- The `std::ops::ControlFlow` as used by `parse_stream`. -/
inductive ControlFlow where
  | Break
  | Continue
deriving DecidableEq, Repr

/-- The `IpcClient::send` (src/ipc.rs 86-98), as the byte sequence written to
the socket: `none` when `to_bytes` fails (the error return before any
write); otherwise the 2-byte little-endian `cmd.len() as u16` length
prefix followed by all payload bytes. The `as u16` cast truncates the
length modulo 2^16. -/
def IpcClient.send (command : Commands) : Option (List Nat) :=
  (command.to_bytes).map fun cmd => natLE 2 (cmd.length % 65536) ++ cmd

/-- The `parse_stream` (src/ipc.rs 152-177) on the bytes available from one
connection: read a 2-byte length prefix (failure: continue), read that
many payload bytes (failure: continue), decode (failure: continue); a
decoded command is forwarded to the channel (the returned list) and only
`Shutdown` breaks the accept loop. -/
def parse_stream (input : List Nat) : ControlFlow × List Commands :=
  match input with
  | b0 :: b1 :: rest =>
    let len := b0 + 256 * b1
    if rest.length < len then (ControlFlow.Continue, [])
    else
      match Commands.from_bytes (rest.take len) with
      | some command =>
        match command with
        | Commands.shutdown => (ControlFlow.Break, [command])
        | _ => (ControlFlow.Continue, [command])
      | none => (ControlFlow.Continue, [])
  | _ => (ControlFlow.Continue, [])

/-- The frame-decoding part of `parse_stream` in isolation: the command a
complete, well-formed frame at the head of the input decodes to. Used to
state which inputs make the accept loop stop. -/
def decodeFrame (input : List Nat) : Option Commands :=
  match input with
  | b0 :: b1 :: rest =>
    let len := b0 + 256 * b1
    if rest.length < len then none
    else Commands.from_bytes (rest.take len)
  | _ => none

/-- The daemon's RNG (`SmallRng`), modelled by explicit draw streams plus
a position counter; each draw consumes one position. -/
structure SmallRng where
  natStream : Nat → Nat
  realStream : Nat → ℝ
  pos : Nat

/-- The `rng.random_range(lo..hi)` on integers: `lo + draw % (hi - lo)`
(the source never calls this with an empty range; see
`Daemon::new_transition`). -/
def SmallRng.randomRangeNat (r : SmallRng) (lo hi : Nat) : Nat × SmallRng :=
  (lo + r.natStream r.pos % (hi - lo), { r with pos := r.pos + 1 })

/-- The `rng.random_range(lo..=hi)` on integers (inclusive). -/
def SmallRng.randomRangeNatIncl (r : SmallRng) (lo hi : Nat) : Nat × SmallRng :=
  (lo + r.natStream r.pos % (hi - lo + 1), { r with pos := r.pos + 1 })

/-- The `rng.random_range(lo..hi)` (and `lo..=hi`) on floats: an affine image
of the stream value. -/
noncomputable def SmallRng.randomRangeReal (r : SmallRng) (lo hi : ℝ) : ℝ × SmallRng :=
  (lo + (hi - lo) * r.realStream r.pos, { r with pos := r.pos + 1 })

/-- The `rng.random_range(lo..=hi)` on floats. -/
noncomputable def SmallRng.randomRangeRealIncl (r : SmallRng) (lo hi : ℝ) : ℝ × SmallRng :=
  (lo + (hi - lo) * r.realStream r.pos, { r with pos := r.pos + 1 })

/-- Rust's `%` on floats, for the wave angle `(360.0 + angle - 90.0) % 360.0`:
truncated remainder; for the non-negative operands that occur it agrees
with the floor form used here. -/
noncomputable def fmodReal (x y : ℝ) : ℝ :=
  x - y * (⌊x / y⌋ : ℤ)

/-- The configuration snapshot, modelled through its accessor view
(walrus-core `Config`: each accessor resolves the optional field against
its default, so the daemon only ever sees these resolved values). -/
structure Config where
  bezier : ℝ × ℝ × ℝ × ℝ
  duration : ℝ
  dynamic_duration : Bool
  fill : String
  filter : FilterMethod
  flavour : List TransitionFlavour
  fps : Nat
  interval : Nat
  resize : ResizeMethod
  resolution : Resolution
  shuffle : Bool
  step : Nat
  swww_path : String
  wallpaper_path : String
  wave_size : Nat × Nat × Nat × Nat

/-- The `struct Daemon` (crates/walrus-daemon/src/daemon.rs 27-33). -/
structure Daemon where
  config : Config
  paused : Bool
  queue : Queue
  rng : SmallRng

/-- The `Daemon::new_transition` (crates/walrus-daemon/src/daemon.rs 151-207):
draw a flavour, draw an angle in `[0, 360)`, normalize the duration for
angle-based flavours under dynamic duration, build the common argument
chain, then add the flavour-specific arguments (angle; angle rotated by
90 degrees plus wave jitter; or a position pair). Returns the built
argument list and the daemon with the advanced RNG. The source's
`flavours.get(i).unwrap()` cannot fail because `i` is drawn below the
length; the `getD` default is never reached for non-empty flavour lists
(an empty list makes the source's `random_range(0..0)` panic). -/
noncomputable def new_transition_core (cfg : Config) (rng : SmallRng) :
    List ImgArg × SmallRng :=
  let resolution := cfg.resolution
  let bezier := cfg.bezier
  let duration0 := cfg.duration
  let dynamic_duration := cfg.dynamic_duration
  let fill := cfg.fill
  let filter := cfg.filter
  let fps := cfg.fps
  let resize := cfg.resize
  let step := cfg.step
  let flavours := cfg.flavour
  let fr := rng.randomRangeNat 0 flavours.length
  let flavour := flavours.getD fr.1 TransitionFlavour.Wipe
  let ar := fr.2.randomRangeReal 0 360
  let angle := ar.1
  let duration :=
    match flavour with
    | TransitionFlavour.Wipe | TransitionFlavour.Wave =>
      if dynamic_duration then normalize_duration duration0 resolution angle
      else duration0
    | _ => duration0
  let builder :=
    ((((((((TransitionArgBuilder.new.with_transition flavour).with_duration
      duration).with_fill fill).with_filter filter).with_fps fps).with_resize
      resize).with_step step).with_bezier bezier)
  match flavour with
  | TransitionFlavour.Wipe =>
    ((builder.with_angle angle).build, ar.2)
  | TransitionFlavour.Wave =>
    let ws := cfg.wave_size
    let wr := ar.2.randomRangeNatIncl ws.1 ws.2.1
    let hr := wr.2.randomRangeNatIncl ws.2.2.1 ws.2.2.2
    let wave : WaveSize := { width := wr.1, height := hr.1 }
    let angle2 := fmodReal (360 + angle - 90) 360
    (((builder.with_angle angle2).with_wave wave).build, hr.2)
  | TransitionFlavour.Grow | TransitionFlavour.Outer =>
    let xr := ar.2.randomRangeRealIncl 0 1
    let yr := xr.2.randomRangeRealIncl 0 1
    ((builder.with_pos { x := xr.1, y := yr.1 }).build, yr.2)

/-- The method itself: the argument list together with the daemon whose
RNG field advanced (the only field `new_transition` writes, and, with the
configuration, the only field it reads). -/
noncomputable def Daemon.new_transition (d : Daemon) : List ImgArg × Daemon :=
  let t := new_transition_core d.config d.rng
  (t.1, { d with rng := t.2 })

/-- Externally visible effects of one daemon action. -/
inductive Action where
  | SetWallpaper (args : List ImgArg) (path : String)
  | SendShutdown
  | CreateSymlink (src : String) (category : String)

/-- The `Daemon::advance_wallpaper` (crates/walrus-daemon/src/daemon.rs
209-227): apply the advance function; if the new current path no longer
exists, prune all stale entries; then either set the wallpaper at the
current position (which draws a fresh transition, advancing the RNG) or,
when nothing is left, send `Shutdown` to the command channel. -/
noncomputable def Daemon.advance_wallpaper (d : Daemon) (fs : String → Bool)
    (advance_fn : Queue → Queue) : Daemon × List Action :=
  let q1 := advance_fn d.queue
  let q2 :=
    match q1.get_current with
    | some current => if fs current = false then (q1.cleanup_invalid_files fs).1 else q1
    | none => q1
  match q2.get_current with
  | some wallpaper =>
    let d1 : Daemon := { d with queue := q2 }
    let t := d1.new_transition
    (t.2, [Action.SetWallpaper t.1 wallpaper])
  | none => ({ d with queue := q2 }, [Action.SendShutdown])

/-- The `Daemon::next_wallpaper`. -/
noncomputable def Daemon.next_wallpaper (d : Daemon) (fs : String → Bool) :
    Daemon × List Action :=
  d.advance_wallpaper fs Queue.next

/-- The `Daemon::previous_wallpaper`. -/
noncomputable def Daemon.previous_wallpaper (d : Daemon) (fs : String → Bool) :
    Daemon × List Action :=
  d.advance_wallpaper fs Queue.previous

/-- The result of `rx.recv_timeout` in the run loop. -/
inductive RecvResult where
  | Ok (c : Commands)
  | Timeout
  | Disconnected

/-- One iteration of `Daemon::run` (crates/walrus-daemon/src/daemon.rs
48-121): dispatch one receive result. `newConfig` is the configuration a
`Reload` would read from disk. The returned boolean is the loop's `cont`
flag. `none` models the panics of the source: the `unreachable!()` on a
received `Config` command, and `get_current().unwrap()` on `Categorise`
with an empty queue. -/
noncomputable def Daemon.step (d : Daemon) (fs : String → Bool)
    (newConfig : Config) (r : RecvResult) : Option (Daemon × List Action × Bool) :=
  match r with
  | .Ok Commands.config => none
  | .Ok (Commands.categorise category) =>
    match d.queue.get_current with
    | some cur => some (d, [Action.CreateSymlink cur category], true)
    | none => none
  | .Ok Commands.next =>
    let t := d.next_wallpaper fs
    some (t.1, t.2, true)
  | .Ok Commands.pause => some ({ d with paused := true }, [], true)
  | .Ok Commands.previous =>
    let t := d.previous_wallpaper fs
    some (t.1, t.2, true)
  | .Ok Commands.resume => some ({ d with paused := false }, [], true)
  | .Ok Commands.reload => some ({ d with config := newConfig }, [], true)
  | .Ok Commands.shutdown => some (d, [], false)
  | .Timeout =>
    if d.paused = false then
      let t := d.next_wallpaper fs
      some (t.1, t.2, true)
    else some (d, [], true)
  | .Disconnected => some (d, [], false)

/-- A path as its list of components, for the category-symlink model
(`PathBuf` viewed through `components()`). -/
abbrev CPath := List String

/-- The slice of file-system state touched by
`Daemon::create_category_symlink`: the set of directories and the created
symbolic links, each link a destination/target pair. -/
structure FS where
  dirs : List CPath
  links : List (CPath × CPath)
deriving DecidableEq, Repr

/-- The `fs::create_dir_all`: ensure the directory entry exists (idempotent). -/
def FS.create_dir_all (fs : FS) (p : CPath) : FS :=
  if p ∈ fs.dirs then fs else { fs with dirs := p :: fs.dirs }

/-- Whether an entry already exists at `p` (a directory or a link
destination); `symlink` fails on an occupied destination (EEXIST). -/
def FS.occupied (fs : FS) (p : CPath) : Bool :=
  decide (p ∈ fs.dirs) || decide (p ∈ fs.links.map Prod.fst)

/-- The `unix::fs::symlink(src, dst)`: creates the link unless the
destination already exists; the failure is only logged in the source, so
the state is returned together with the success flag. -/
def FS.symlink (fs : FS) (src dst : CPath) : FS × Bool :=
  if fs.occupied dst then (fs, false)
  else ({ fs with links := (dst, src) :: fs.links }, true)

/-- The `Path::strip_prefix`, component-wise (called `strip_base` here). -/
def strip_base : CPath → CPath → Option CPath
  | [], p => some p
  | _ :: _, [] => none
  | b :: bs, c :: cs => if b = c then strip_base bs cs else none

/-- The `Daemon::create_category_symlink` (crates/walrus-daemon/src/daemon.rs
123-149): build `base/.category`, create it, strip the base from the
wallpaper path (the source's `.expect` panic on a mismatch is `none`),
create the destination's parent directories, and create the symlink; a
symlink failure is logged and the remaining state kept. -/
def create_category_symlink (fs : FS) (base src : CPath) (category : String) :
    Option FS :=
  let dir := base ++ [String.append "." category]
  let fs1 := fs.create_dir_all dir
  match strip_base base src with
  | none => none
  | some rel =>
    let dst := dir ++ rel
    let fs2 := fs1.create_dir_all dst.dropLast
    some (fs2.symlink src dst).1

/-- The advance postcondition of the spec, relative to the pre-state
queue of daemon `d`: either the new current entry exists on the file
system and the wallpaper was set there, or the queue ended up empty,
`Shutdown` was sent, and every candidate had been exhausted (each
pre-state entry was stale) or the queue was empty to begin with. -/
def AdvanceOk (d : Daemon) (fs : String → Bool) (t : Daemon × List Action) : Prop :=
  (∃ args w, t.1.queue.get_current = some w ∧ fs w = true ∧
    t.2 = [Action.SetWallpaper args w]) ∨
  (t.1.queue.queue = [] ∧ t.2 = [Action.SendShutdown] ∧
    (d.queue.queue = [] ∨ ∀ p ∈ d.queue.queue, fs p = false))

/-- A concrete configuration snapshot (the source defaults), used by the
witnesses. -/
noncomputable def config0 : Config where
  bezier := (1, 0, 1, 1)
  duration := 1
  dynamic_duration := true
  fill := "000000"
  filter := FilterMethod.Lanczos3
  flavour := [TransitionFlavour.Wipe, TransitionFlavour.Wave,
    TransitionFlavour.Grow, TransitionFlavour.Outer]
  fps := 60
  interval := 300
  resize := ResizeMethod.No
  resolution := { width := 1920, height := 1080 }
  shuffle := true
  step := 60
  swww_path := "/usr/bin/swww"
  wallpaper_path := "root"
  wave_size := (70, 80, 35, 40)

/-- A concrete RNG state for the witnesses. -/
noncomputable def rng0 : SmallRng where
  natStream := fun _ => 0
  realStream := fun _ => 0
  pos := 0

/-- A concrete paused daemon for the witnesses. -/
noncomputable def daemon0 : Daemon where
  config := config0
  paused := true
  queue := Queue.new ["a"]
  rng := rng0

/-- A category name of 65536 characters: its `categorise` payload
overflows the `u16` frame-length prefix. -/
def bigCategory : String :=
  String.mk (List.replicate 65536 'a')

/-- The categorise command whose encoded payload exceeds 65535 bytes. -/
def bigCategorise : Commands :=
  Commands.categorise bigCategory

/-- The payload `to_bytes` produces for `bigCategorise`. -/
def bigPayload : List Nat :=
  1 :: (natLE 8 65536 ++ List.replicate 65536 97)

/-- Claim C10: on the empty queue, the next and previous advances are
total no-ops (the modulo-by-zero branch is unreachable, the queue stays
empty and the index is unchanged) and the current-wallpaper accessor
returns none. -/
theorem empty_queue_advance_noop (i : Nat) :
    Queue.next { queue := [], index := i } = { queue := [], index := i } ∧
    Queue.previous { queue := [], index := i } = { queue := [], index := i } ∧
    Queue.get_current { queue := [], index := i } = none := by
  refine ⟨?_, ?_, ?_⟩ <;>
    simp [Queue.next, Queue.previous, Queue.get_current, Queue.is_empty]

/-- Claim C2: every queue operation preserves the invariant
`index < len` whenever `len > 0`: construction, shuffle, sort, next,
previous and the cleanup of invalid files. -/
theorem queue_index_invariant (files : List String) (f : Nat → Nat)
    (fsx : String → Bool) (q : Queue) (h : q.inv) :
    (Queue.new files).inv ∧ (q.shuffle f).inv ∧ q.sort.inv ∧
    q.next.inv ∧ q.previous.inv ∧ ((q.cleanup_invalid_files fsx).1).inv := by
  refine ⟨?_, ?_, ?_, ?_, ?_, ?_⟩
  · intro hne
    simpa [Queue.new] using List.length_pos.mpr hne
  · intro hne
    simpa [Queue.shuffle] using List.length_pos.mpr hne
  · intro hne
    have hperm := List.mergeSort_perm q.queue pathLe
    have hlen : (q.queue.mergeSort pathLe).length = q.queue.length :=
      hperm.length_eq
    have hne' : q.queue ≠ [] := by
      intro hnil
      apply hne
      simp [Queue.sort, hnil]
    simpa [Queue.sort, hlen] using h hne'
  · intro hne
    unfold Queue.next at hne ⊢
    by_cases he : q.is_empty
    · simp only [he, if_true] at hne ⊢
      exact h hne
    · simp only [he, if_false] at hne ⊢
      exact Nat.mod_lt _ (List.length_pos.mpr hne)
  · intro hne
    unfold Queue.previous at hne ⊢
    by_cases he : q.is_empty
    · simp only [he, if_true] at hne ⊢
      exact h hne
    · simp only [he, if_false] at hne ⊢
      exact Nat.mod_lt _ (List.length_pos.mpr hne)
  · intro hne
    simp only [Queue.cleanup_invalid_files] at hne ⊢
    have hne' : q.queue.filter fsx ≠ [] := hne
    have hkb : (q.queue.filter fsx).isEmpty = false := by
      simpa [List.isEmpty_iff] using hne'
    simp only [hkb, Bool.false_eq_true, if_false]
    have hpos : 0 < (q.queue.filter fsx).length := List.length_pos.mpr hne'
    have hmin : min q.index ((q.queue.filter fsx).length - 1) ≤
        (q.queue.filter fsx).length - 1 := Nat.min_le_right _ _
    omega

/-- Witness for C2 at the one-element queue. -/
theorem queue_index_invariant_witness :
    Queue.inv (Queue.new ["a"]) ∧
    ((Queue.new ["a"]).shuffle (fun _ => 0)).inv ∧ (Queue.new ["a"]).sort.inv := by
  have hinv : Queue.inv (Queue.new ["a"]) := fun _ => Nat.one_pos
  have h := queue_index_invariant ["a"] (fun _ => 0) (fun _ => true)
    (Queue.new ["a"]) hinv
  exact ⟨hinv, h.2.1, h.2.2.1⟩

/-- Counterexample to claim C6 as stated: first, sorting a reachable
queue whose index is 1 leaves the index at 1, so sort does not reset the
index to 0; second, on the queue `[root/a.d/x, root/a/x]` the code's
component-wise `PathBuf` sort produces `[root/a/x, root/a.d/x]`, whose
first entry is not below the second in full-path-string order (the
separator `/` is above `.`), so the result is not in lexicographic order
of the full path strings. -/
theorem queue_sort_claim_cx :
    ¬ ((Queue.new ["b", "a"]).next.sort).index = 0 ∧
    (Queue.new ["root/a.d/x", "root/a/x"]).sort.queue =
      ["root/a/x", "root/a.d/x"] ∧
    ¬ (("root/a/x".data : List Char) ≤ "root/a.d/x".data) := by
  refine ⟨by decide, ?_, by decide⟩
  show List.mergeSort ["root/a.d/x", "root/a/x"] pathLe =
    ["root/a/x", "root/a.d/x"]
  have hle : pathLe "root/a.d/x" "root/a/x" = false := by decide
  simp [List.mergeSort, List.merge, hle]

/-- Claim C6 (amended): sort puts the entries in the stable lexicographic
component-wise path order (`PathBuf`'s order, which deviates from
full-path-string order when a separator competes with another character)
and leaves the current index unchanged, while shuffle resets the current
index to 0. -/
theorem sort_orders_shuffle_resets_index (q : Queue) (f : Nat → Nat) :
    List.Pairwise (fun a b => pathLe a b = true) q.sort.queue ∧
    q.sort.queue.Perm q.queue ∧
    q.sort.index = q.index ∧
    (q.shuffle f).index = 0 := by
  refine ⟨?_, ?_, rfl, rfl⟩
  · exact List.sorted_mergeSort
      (fun a b c hab hbc => by
        simp only [pathLe, decide_eq_true_eq] at hab hbc ⊢
        exact le_trans hab hbc)
      (fun a b => by
        simp only [pathLe, Bool.or_eq_true, decide_eq_true_eq]
        exact le_total _ _)
      q.queue
  · exact List.mergeSort_perm q.queue pathLe

/-- Claim C9: the duration normalization is periodic in the angle with
period 360 degrees. -/
theorem normalize_duration_periodic (d : ℝ) (res : Resolution) (a : ℝ) :
    normalize_duration d res (a + 360) = normalize_duration d res a := by
  simp only [normalize_duration]
  have h : (a + 360) * (Real.pi / 180) = a * (Real.pi / 180) + 2 * Real.pi := by
    ring
  rw [h, Real.cos_add_two_pi, Real.sin_add_two_pi]

/-- Claim C3: the frame parser forwards exactly the successfully decoded
command (nothing on a truncated prefix, truncated payload or failed
decode) and stops the accept loop precisely when that command is
`Shutdown`, which is forwarded before breaking. -/
theorem parse_stream_break_iff_shutdown (input : List Nat) :
    parse_stream input =
      (if decodeFrame input = some Commands.shutdown then ControlFlow.Break
        else ControlFlow.Continue,
        (decodeFrame input).toList) ∧
    ((parse_stream input).1 = ControlFlow.Break ↔
      decodeFrame input = some Commands.shutdown) := by
  have heq : parse_stream input =
      (if decodeFrame input = some Commands.shutdown then ControlFlow.Break
        else ControlFlow.Continue,
        (decodeFrame input).toList) := by
    unfold parse_stream decodeFrame
    rcases input with _ | ⟨b0, _ | ⟨b1, rest⟩⟩
    · simp
    · simp
    · by_cases hl : rest.length < b0 + 256 * b1
      · simp [hl]
      · simp only [hl, if_false]
        rcases hc : Commands.from_bytes (rest.take (b0 + 256 * b1)) with _ | c
        · simp
        · cases c <;> simp
  refine ⟨heq, ?_⟩
  rw [heq]
  by_cases hs : decodeFrame input = some Commands.shutdown <;> simp [hs]

/-- The `natLE k n` has length `k`. -/
theorem length_natLE (k n : Nat) : (natLE k n).length = k := by
  induction k generalizing n with
  | zero => rfl
  | succ k ih => simp [natLE, ih]

/-- Decoding the little-endian digits recovers the value when it fits. -/
theorem leVal_natLE (k n : Nat) (h : n < 256 ^ k) : leVal (natLE k n) = n := by
  induction k generalizing n with
  | zero =>
    simp only [pow_zero, Nat.lt_one_iff] at h
    simp [natLE, leVal, h]
  | succ k ih =>
    have hdiv : n / 256 < 256 ^ k := by
      have h2 : (256 : Nat) ^ (k + 1) = 256 ^ k * 256 := by ring
      exact Nat.div_lt_of_lt_mul (by omega)
    simp only [natLE, leVal, ih (n / 256) hdiv]
    omega

/-- For any command with an encodable payload below the `u16` limit, the
decoder inverts the encoder. -/
theorem from_bytes_to_bytes (c : Commands) (p : List Nat)
    (hc : c.to_bytes = some p) (hlen : p.length < 65536) :
    Commands.from_bytes p = some c := by
  cases c with
  | config => simp [Commands.to_bytes] at hc
  | categorise s =>
    simp only [Commands.to_bytes, Option.some_inj] at hc
    subst hc
    simp only [List.length_cons, List.length_append, length_natLE,
      List.length_map] at hlen
    have hsd : s.length = s.data.length := rfl
    have hfit : s.length < 256 ^ 8 := by
      have hp : (256 : Nat) ^ 8 = 18446744073709551616 := by norm_num
      omega
    have htake : (natLE 8 s.length ++ s.data.map Char.toNat).take 8 =
        natLE 8 s.length := List.take_left' (length_natLE 8 s.length)
    have hdrop : (natLE 8 s.length ++ s.data.map Char.toNat).drop 8 =
        s.data.map Char.toNat := List.drop_left' (length_natLE 8 s.length)
    simp only [Commands.from_bytes, List.length_append, length_natLE,
      List.length_map, htake, hdrop, leVal_natLE 8 s.length hfit]
    rw [if_neg (by omega : ¬ (8 + s.data.length < 8)), if_pos hsd.symm]
    have hmapmap : (s.data.map Char.toNat).map Char.ofNat = s.data := by
      rw [List.map_map]
      simp [Function.comp_def, Char.ofNat_toNat]
    rw [hmapmap]
  | next =>
    simp only [Commands.to_bytes, Option.some_inj] at hc
    subst hc; rfl
  | previous =>
    simp only [Commands.to_bytes, Option.some_inj] at hc
    subst hc; rfl
  | pause =>
    simp only [Commands.to_bytes, Option.some_inj] at hc
    subst hc; rfl
  | resume =>
    simp only [Commands.to_bytes, Option.some_inj] at hc
    subst hc; rfl
  | reload =>
    simp only [Commands.to_bytes, Option.some_inj] at hc
    subst hc; rfl
  | shutdown =>
    simp only [Commands.to_bytes, Option.some_inj] at hc
    subst hc; rfl

/-- Parsing a client frame whose payload fits the `u16` prefix yields the
encoded command. -/
theorem parse_stream_frame (c : Commands) (p : List Nat)
    (hc : c.to_bytes = some p) (hlen : p.length < 65536) :
    (parse_stream (natLE 2 (p.length % 65536) ++ p)).2 = [c] := by
  have hmod : p.length % 65536 = p.length := Nat.mod_eq_of_lt hlen
  have hframe : natLE 2 (p.length % 65536) ++ p =
      p.length % 256 :: (p.length / 256) % 256 :: p := by
    simp [natLE, hmod]
  rw [hframe]
  simp only [parse_stream]
  have hval : p.length % 256 + 256 * (p.length / 256 % 256) = p.length := by
    omega
  rw [hval]
  have hnl : ¬ (p.length < p.length) := Nat.lt_irrefl _
  rw [if_neg hnl, List.take_length]
  rw [from_bytes_to_bytes c p hc hlen]
  cases c <;> rfl

/-- Claim C1 (amended): for every command other than the client-only
print-config command whose payload fits the 2-byte length prefix
(below 65536 bytes), encoding on the client and decoding the framed bytes
on the server yields the same command; the print-config command is never
encoded onto the wire. -/
theorem commands_encode_decode_roundtrip :
    (∀ (c : Commands) (p : List Nat), c.to_bytes = some p →
      p.length < 65536 →
      ∃ frame, IpcClient.send c = some frame ∧ (parse_stream frame).2 = [c]) ∧
    Commands.to_bytes Commands.config = none ∧
    IpcClient.send Commands.config = none := by
  refine ⟨?_, rfl, rfl⟩
  intro c p hc hlen
  refine ⟨natLE 2 (p.length % 65536) ++ p, ?_, parse_stream_frame c p hc hlen⟩
  simp [IpcClient.send, hc]

/-- Witness for C1 at the `Next` command. -/
theorem commands_encode_decode_roundtrip_witness :
    Commands.to_bytes Commands.next = some [2] ∧ ([2] : List Nat).length < 65536 ∧
    ∃ frame, IpcClient.send Commands.next = some frame ∧
      (parse_stream frame).2 = [Commands.next] :=
  ⟨rfl, by decide,
    commands_encode_decode_roundtrip.1 Commands.next [2] rfl (by decide)⟩

/-- Counterexample to claim C1 as stated: the 65536-character categorise
command encodes to a 65545-byte payload, the `as u16` cast truncates the
length prefix to 9, and the server decodes no command at all, so
`decode(encode(c)) = c` fails for this command. -/
theorem commands_roundtrip_truncation_cx :
    IpcClient.send bigCategorise = some (9 :: 0 :: bigPayload) ∧
    (parse_stream (9 :: 0 :: bigPayload)).2 = [] ∧
    ([] : List Commands) ≠ [bigCategorise] := by
  have hlencat : bigCategory.length = 65536 := by
    show (List.replicate 65536 'a').length = 65536
    exact List.length_replicate _ _
  have hmapcat : bigCategory.data.map Char.toNat = List.replicate 65536 97 := by
    show (List.replicate 65536 'a').map Char.toNat = List.replicate 65536 97
    rw [List.map_replicate]
    rfl
  have hbytes : bigCategorise.to_bytes = some bigPayload := by
    show some (1 :: (natLE 8 bigCategory.length ++ bigCategory.data.map Char.toNat)) =
      some bigPayload
    rw [hlencat, hmapcat]
    rfl
  have hplen : bigPayload.length = 65545 := by
    show (1 :: (natLE 8 65536 ++ List.replicate 65536 97)).length = 65545
    rw [List.length_cons, List.length_append, length_natLE, List.length_replicate]
  refine ⟨?_, ?_, by simp⟩
  · simp only [IpcClient.send, hbytes, Option.map_some', hplen]
    have hmod : (65545 : Nat) % 65536 = 9 := by norm_num
    rw [hmod]
    rfl
  · simp only [parse_stream]
    have hlen9 : (9 : Nat) + 256 * 0 = 9 := by norm_num
    rw [hlen9]
    have hnl : ¬ (bigPayload.length < 9) := by
      rw [hplen]; omega
    rw [if_neg hnl]
    have htake : bigPayload.take 9 = 1 :: natLE 8 65536 := rfl
    rw [htake]
    have hdec : Commands.from_bytes (1 :: natLE 8 65536) = none := rfl
    rw [hdec]

/-- Building a transition never changes the configuration snapshot. -/
theorem new_transition_config (d : Daemon) :
    d.new_transition.2.config = d.config := rfl

/-- Building a transition never changes the queue. -/
theorem new_transition_queue (d : Daemon) :
    d.new_transition.2.queue = d.queue := rfl

/-- Building a transition never changes the paused flag. -/
theorem new_transition_paused (d : Daemon) :
    d.new_transition.2.paused = d.paused := rfl

/-- Building a transition is insensitive to the paused flag: it reads the
configuration and the RNG only. -/
theorem new_transition_paused_update (d : Daemon) (b : Bool) :
    Daemon.new_transition { d with paused := b } =
      (d.new_transition.1, { d.new_transition.2 with paused := b }) := rfl

/-- Claim C8: constructing a transition specification leaves the queue, the
configuration snapshot and the paused flag of the daemon unchanged; only
the RNG state moves. -/
theorem new_transition_pure_frame (d : Daemon) :
    d.new_transition.2.config = d.config ∧
    d.new_transition.2.queue = d.queue ∧
    d.new_transition.2.paused = d.paused :=
  ⟨new_transition_config d, new_transition_queue d, new_transition_paused d⟩

/-- Advancing is insensitive to the paused flag: the result differs only
in carrying that flag through. -/
theorem advance_wallpaper_paused_update (d : Daemon) (b : Bool)
    (fs : String → Bool) (fn : Queue → Queue) :
    Daemon.advance_wallpaper { d with paused := b } fs fn =
      ({ (d.advance_wallpaper fs fn).1 with paused := b },
        (d.advance_wallpaper fs fn).2) := by
  unfold Daemon.advance_wallpaper
  dsimp only
  split <;> rfl

/-- Claim C4: with paused set, a receive timeout leaves the daemon
untouched and sets no wallpaper; without it, a timeout behaves exactly
like an explicit Next; and the explicit Next and Previous commands act the
same regardless of the paused flag (which is only carried through). -/
theorem daemon_paused_timeout_semantics (d : Daemon) (fs : String → Bool)
    (cfg : Config) :
    (d.paused = true → d.step fs cfg RecvResult.Timeout = some (d, [], true)) ∧
    (d.paused = false →
      d.step fs cfg RecvResult.Timeout = d.step fs cfg (RecvResult.Ok Commands.next)) ∧
    (∀ b, Daemon.step { d with paused := b } fs cfg (RecvResult.Ok Commands.next) =
      (d.step fs cfg (RecvResult.Ok Commands.next)).map
        (fun t => ({ t.1 with paused := b }, t.2))) ∧
    (∀ b, Daemon.step { d with paused := b } fs cfg (RecvResult.Ok Commands.previous) =
      (d.step fs cfg (RecvResult.Ok Commands.previous)).map
        (fun t => ({ t.1 with paused := b }, t.2))) := by
  refine ⟨?_, ?_, ?_, ?_⟩
  · intro h
    simp [Daemon.step, h]
  · intro h
    simp [Daemon.step, h]
  · intro b
    simp only [Daemon.step, Daemon.next_wallpaper]
    rw [advance_wallpaper_paused_update]
    rfl
  · intro b
    simp only [Daemon.step, Daemon.previous_wallpaper]
    rw [advance_wallpaper_paused_update]
    rfl

/-- Witness for C4 at a concrete paused daemon. -/
theorem daemon_paused_timeout_semantics_witness :
    daemon0.paused = true ∧
    daemon0.step (fun _ => true) config0 RecvResult.Timeout =
      some (daemon0, [], true) :=
  ⟨rfl, (daemon_paused_timeout_semantics daemon0 (fun _ => true) config0).1 rfl⟩

/-- The `Queue::next` never changes the path list. -/
theorem queue_next_queue (q : Queue) : q.next.queue = q.queue := by
  unfold Queue.next
  split <;> rfl

/-- The `Queue::previous` never changes the path list. -/
theorem queue_previous_queue (q : Queue) : q.previous.queue = q.queue := by
  unfold Queue.previous
  split <;> rfl

/-- After `Queue::next` on a non-empty queue the index is in range. -/
theorem queue_next_index (q : Queue) (h : q.queue ≠ []) :
    q.next.index < q.queue.length := by
  unfold Queue.next
  have he : q.is_empty = false := by
    simpa [Queue.is_empty, List.isEmpty_iff] using h
  simp only [he, Bool.false_eq_true, if_false]
  exact Nat.mod_lt _ (List.length_pos.mpr h)

/-- After `Queue::previous` on a non-empty queue the index is in range. -/
theorem queue_previous_index (q : Queue) (h : q.queue ≠ []) :
    q.previous.index < q.queue.length := by
  unfold Queue.previous
  have he : q.is_empty = false := by
    simpa [Queue.is_empty, List.isEmpty_iff] using h
  simp only [he, Bool.false_eq_true, if_false]
  exact Nat.mod_lt _ (List.length_pos.mpr h)

/-- The cleanup keeps exactly the existing paths and clamps the index
into range when something is left. -/
theorem cleanup_invalid_files_result (q : Queue) (fs : String → Bool) :
    ((q.cleanup_invalid_files fs).1).queue = q.queue.filter fs ∧
    (q.queue.filter fs ≠ [] →
      ((q.cleanup_invalid_files fs).1).index < (q.queue.filter fs).length) := by
  refine ⟨rfl, ?_⟩
  intro h
  simp only [Queue.cleanup_invalid_files]
  have hkb : (q.queue.filter fs).isEmpty = false := by
    simpa [List.isEmpty_iff] using h
  simp only [hkb, Bool.false_eq_true, if_false]
  have hmin := Nat.min_le_right q.index ((q.queue.filter fs).length - 1)
  have hpos := List.length_pos.mpr h
  omega

/-- An in-range index makes `get_current` return a member of the queue. -/
theorem get_current_some (q : Queue) (h : q.index < q.queue.length) :
    ∃ w, q.get_current = some w ∧ w ∈ q.queue :=
  ⟨q.queue[q.index], by simp [Queue.get_current, List.getElem?_eq_getElem h],
    List.getElem_mem h⟩

/-- The advance postcondition holds for any advance function that
preserves the path list and lands in range on a non-empty queue. -/
theorem advance_wallpaper_ok (d : Daemon) (fs : String → Bool) (fn : Queue → Queue)
    (hq : (fn d.queue).queue = d.queue.queue)
    (hi : d.queue.queue ≠ [] → (fn d.queue).index < (fn d.queue).queue.length) :
    AdvanceOk d fs (d.advance_wallpaper fs fn) := by
  rcases hcur : (fn d.queue).get_current with _ | cur
  · -- no entry at the stepped-to position: only possible when empty
    have hd : d.queue.queue = [] := by
      by_contra hne
      have h1 := hi hne
      have h2 : (fn d.queue).queue.length ≤ (fn d.queue).index := by
        simpa [Queue.get_current, List.getElem?_eq_none_iff] using hcur
      omega
    have hq1 : (fn d.queue).queue = [] := by rw [hq, hd]
    unfold Daemon.advance_wallpaper AdvanceOk
    simp only [hcur]
    right
    exact ⟨hq1, trivial, Or.inl hd⟩
  · unfold Daemon.advance_wallpaper AdvanceOk
    simp only [hcur]
    by_cases hfs : fs cur = false
    · rw [if_pos hfs]
      by_cases hk : (fn d.queue).queue.filter fs = []
      · have hcq : (((fn d.queue).cleanup_invalid_files fs).1).queue = [] := by
          rw [((cleanup_invalid_files_result (fn d.queue) fs).1 : _), hk]
        have hnone : (((fn d.queue).cleanup_invalid_files fs).1).get_current = none := by
          simp [Queue.get_current, hcq]
        simp only [hnone]
        right
        refine ⟨hcq, trivial, Or.inr ?_⟩
        intro p hp
        rw [← hq] at hp
        have hnp := List.filter_eq_nil_iff.mp hk p hp
        revert hnp
        cases fs p <;> simp
      · have hidx : (((fn d.queue).cleanup_invalid_files fs).1).index <
            (((fn d.queue).cleanup_invalid_files fs).1).queue.length := by
          rw [(cleanup_invalid_files_result (fn d.queue) fs).1]
          exact (cleanup_invalid_files_result (fn d.queue) fs).2 hk
        obtain ⟨w, hw, hmem⟩ :=
          get_current_some (((fn d.queue).cleanup_invalid_files fs).1) hidx
        simp only [hw]
        left
        have hfw : fs w = true := by
          rw [(cleanup_invalid_files_result (fn d.queue) fs).1] at hmem
          exact (List.mem_filter.mp hmem).2
        exact ⟨_, w, hw, hfw, rfl⟩
    · have hft : fs cur = true := by
        revert hfs
        cases fs cur <;> simp
      rw [if_neg hfs]
      simp only [hcur]
      left
      exact ⟨_, cur, hcur, hft, rfl⟩

/-- Claim C5: after an advance in either direction, either the current
entry exists on the file system (and the wallpaper was set there), or the
queue ended up empty and `Shutdown` was reported, which happens only when
every candidate was exhausted or the queue was empty to begin with. -/
theorem advance_wallpaper_postcondition (d : Daemon) (fs : String → Bool) :
    AdvanceOk d fs (d.next_wallpaper fs) ∧ AdvanceOk d fs (d.previous_wallpaper fs) := by
  constructor
  · exact advance_wallpaper_ok d fs Queue.next (queue_next_queue d.queue)
      (fun h => by rw [queue_next_queue]; exact queue_next_index d.queue h)
  · exact advance_wallpaper_ok d fs Queue.previous (queue_previous_queue d.queue)
      (fun h => by rw [queue_previous_queue]; exact queue_previous_index d.queue h)

/-- Stripping a base from `base ++ rel` yields `rel`. -/
theorem strip_base_append (base rel : CPath) :
    strip_base base (base ++ rel) = some rel := by
  induction base with
  | nil => rfl
  | cons b bs ih => simp [strip_base, ih]

/-- The `create_dir_all` makes its argument a directory. -/
theorem create_dir_all_mem (fs : FS) (p : CPath) : p ∈ (fs.create_dir_all p).dirs := by
  unfold FS.create_dir_all
  split
  · assumption
  · exact List.mem_cons_self ..

/-- The `create_dir_all` adds at most its argument to the directories. -/
theorem create_dir_all_dirs_mem (fs : FS) (p q : CPath) :
    q ∈ (fs.create_dir_all p).dirs ↔ q = p ∨ q ∈ fs.dirs := by
  unfold FS.create_dir_all
  split
  · rename_i hin
    constructor
    · exact Or.inr
    · rintro (rfl | h)
      · exact hin
      · exact h
  · simp [List.mem_cons]

/-- The `create_dir_all` never touches the links. -/
theorem create_dir_all_links (fs : FS) (p : CPath) :
    (fs.create_dir_all p).links = fs.links := by
  unfold FS.create_dir_all
  split <;> rfl

/-- A successful or failed `symlink` never touches the directories. -/
theorem symlink_dirs (fs : FS) (src dst : CPath) :
    ((fs.symlink src dst).1).dirs = fs.dirs := by
  unfold FS.symlink
  split <;> rfl

/-- Counterexample to claim C7 as stated: with a link for the same
wallpaper already present in the opposite category `.dislike`,
categorising into `.like` is not rejected — the new link is created next
to the old one. -/
theorem categorise_opposite_not_rejected_cx :
    create_category_symlink
        { dirs := [["root"], ["root", ".dislike"]],
          links := [(["root", ".dislike", "img"], ["root", "img"])] }
        ["root"] ["root", "img"] "like" =
      some { dirs := [["root", ".like"], ["root"], ["root", ".dislike"]],
             links := [(["root", ".like", "img"], ["root", "img"]),
                       (["root", ".dislike", "img"], ["root", "img"])] } ∧
    (["root", ".like", "img"], (["root", "img"] : CPath)) ∈
      [((["root", ".like", "img"] : CPath), (["root", "img"] : CPath)),
        (["root", ".dislike", "img"], ["root", "img"])] := by
  constructor
  · decide
  · decide

/-- Claim C7 (amended): categorising the wallpaper at `base ++ rel`
creates the category marker directory `base/.category` and a symlink at
the mirrored relative path inside it whenever that destination is free; a
pre-existing entry at the same destination is left untouched (the symlink
call fails and nothing is overwritten). No opposite-category check is
performed. -/
theorem create_category_symlink_spec (fs : FS) (base rel : CPath)
    (category : String) (hrel : rel ≠ []) :
    ∃ fs1, create_category_symlink fs base (base ++ rel) category = some fs1 ∧
      (base ++ [String.append "." category]) ∈ fs1.dirs ∧
      (fs.occupied ((base ++ [String.append "." category]) ++ rel) = false →
        (((base ++ [String.append "." category]) ++ rel), base ++ rel) ∈ fs1.links) ∧
      (∀ s0, (((base ++ [String.append "." category]) ++ rel), s0) ∈ fs.links →
        fs1.links = fs.links) := by
  unfold create_category_symlink
  rw [strip_base_append]
  refine ⟨_, rfl, ?_, ?_, ?_⟩
  · rw [symlink_dirs]
    rw [create_dir_all_dirs_mem]
    exact Or.inr (create_dir_all_mem fs _)
  · intro hocc
    have hdst_ne_nil : (base ++ [String.append "." category]) ++ rel ≠ [] := by
      simp [hrel]
    have hne1 : (base ++ [String.append "." category]) ++ rel ≠
        base ++ [String.append "." category] := by
      intro h
      have := congrArg List.length h
      simp at this
      exact hrel this
    have hne2 : (base ++ [String.append "." category]) ++ rel ≠
        ((base ++ [String.append "." category]) ++ rel).dropLast := by
      intro h
      have := congrArg List.length h
      rw [List.length_dropLast] at this
      have hpos := List.length_pos.mpr hdst_ne_nil
      omega
    have hocc2 : (((fs.create_dir_all (base ++ [String.append "." category])).create_dir_all
        (((base ++ [String.append "." category]) ++ rel).dropLast)).occupied
        ((base ++ [String.append "." category]) ++ rel)) = false := by
      unfold FS.occupied at hocc ⊢
      simp only [Bool.or_eq_false_iff, decide_eq_false_iff_not] at hocc ⊢
      obtain ⟨hd, hl⟩ := hocc
      constructor
      · rw [create_dir_all_dirs_mem, create_dir_all_dirs_mem]
        rintro (h | h | h)
        · exact hne2 h
        · exact hne1 h
        · exact hd h
      · rw [create_dir_all_links, create_dir_all_links]
        exact hl
    unfold FS.symlink
    rw [hocc2]
    simp only [Bool.false_eq_true, if_false]
    rw [create_dir_all_links, create_dir_all_links]
    exact List.mem_cons_self ..
  · intro s0 hs0
    have hocc2 : (((fs.create_dir_all (base ++ [String.append "." category])).create_dir_all
        (((base ++ [String.append "." category]) ++ rel).dropLast)).occupied
        ((base ++ [String.append "." category]) ++ rel)) = true := by
      unfold FS.occupied
      rw [create_dir_all_links, create_dir_all_links]
      have hmem : (base ++ [String.append "." category]) ++ rel ∈ fs.links.map Prod.fst :=
        List.mem_map.mpr ⟨_, hs0, rfl⟩
      simp only [Bool.or_eq_true, decide_eq_true_eq]
      exact Or.inr hmem
    unfold FS.symlink
    rw [hocc2]
    simp only [if_true]
    rw [create_dir_all_links, create_dir_all_links]

/-- Witness for C7 at a concrete empty state. -/
theorem create_category_symlink_spec_witness :
    (["img"] : CPath) ≠ [] ∧
    (∃ fs1, create_category_symlink { dirs := [], links := [] } ["root"]
        (["root"] ++ ["img"]) "fav" = some fs1 ∧
      ((["root"] : CPath) ++ [String.append "." "fav"]) ∈ fs1.dirs ∧
      (FS.occupied { dirs := [], links := [] }
          (((["root"] : CPath) ++ [String.append "." "fav"]) ++ ["img"]) = false →
        ((((["root"] : CPath) ++ [String.append "." "fav"]) ++ ["img"],
          (["root"] : CPath) ++ ["img"])) ∈ fs1.links) ∧
      (∀ s0, ((((["root"] : CPath) ++ [String.append "." "fav"]) ++ ["img"], s0)) ∈
          (({ dirs := [], links := [] } : FS)).links →
        fs1.links = (({ dirs := [], links := [] } : FS)).links)) :=
  ⟨by decide,
    create_category_symlink_spec { dirs := [], links := [] } ["root"] ["img"] "fav"
      (by decide)⟩

end Walrus
